import Mathlib

/-!
# Verification of `atm-straddle.py`

A shallow embedding of the ATM straddle calculator script. The script is a
single linear pipeline: fetch current price and expirations, compute
historical volatility, then for each of the first four expirations fetch the
option chain, select the ATM strike, read the call/put records at that
strike, derive straddle metrics, print a summary and append a CSV row.

Modelling conventions:
* Prices, strikes, bids/asks, IV and Greeks are exact rationals (the script
  uses floats; the claims under test are stated "within rounding", which the
  exact model satisfies a fortiori).
* Python `round(x, n)` is modelled as round-half-up on exact rationals
  (`round2` / `round4`); the concrete values in the claims are not ties, so
  the banker's-rounding difference is immaterial for them.
* The market-data provider (yfinance) is a black-box collaborator, modelled
  by the `Provider` structure: `histData` is the `period="1d"` close series,
  `monthCloses` the `period="1mo"` close series, `options` the expiration
  list, `chain` the per-expiration option-chain fetch (`none` = the fetch
  raised, matching the bare `except`), `calendar` the earnings lookup
  (`none` = missing or raised), and `dteOf` the calendar-day difference
  between a parsed expiration date and today's date.
* An option record models one row of the pandas calls/puts DataFrame:
  `bid`, `ask`, `impliedVolatility` are accessed by plain indexing in the
  script (required fields here); `delta` and `theta` are accessed with
  `.get(key, 0)` (optional fields here).
* `min(calls['strike'], key=...)` at line 72 sits outside the try/except;
  on an empty calls collection Python's `min` raises an uncaught
  `ValueError` that aborts the whole run. This is the `.crash` outcome.
  The `with open(...)` block still closes (hence flushes) the file on that
  exception, so writes made before the crash persist, while the final
  confirmation line is never printed.
-/

namespace ATMStraddle

/-- One row of the calls or puts DataFrame of an option chain. -/
structure OptionRecord where
  strike : ℚ
  bid : ℚ
  ask : ℚ
  impliedVolatility : ℚ
  delta : Option ℚ
  theta : Option ℚ
deriving DecidableEq

/-- The option chain for one expiration: a calls and a puts collection. -/
structure OptionChain where
  calls : List OptionRecord
  puts : List OptionRecord
deriving DecidableEq

/-- The black-box market-data provider (yfinance) plus ambient clock. -/
structure Provider where
  histData : List ℚ
  options : List String
  monthCloses : List ℚ
  calendar : Option String
  chain : String → Option OptionChain
  dteOf : String → ℤ

/-- Python `round(q, 2)` modelled as round-half-up to 2 decimals on ℚ. -/
def round2 (q : ℚ) : ℚ := ((round (q * 100) : ℤ) : ℚ) / 100

/-- Python `round(q, 4)` modelled as round-half-up to 4 decimals on ℚ. -/
def round4 (q : ℚ) : ℚ := ((round (q * 10000) : ℤ) : ℚ) / 10000

/-- Rounding to 4 decimals on ℝ, for the historical-volatility value. -/
noncomputable def round4R (x : ℝ) : ℝ := ((round (x * 10000) : ℤ) : ℝ) / 10000

/-- One comparison step of Python's `min(..., key=lambda x: abs(x - p))`:
the running best is replaced only when the new key is strictly smaller. -/
def minStep (p b y : ℚ) : ℚ := if |y - p| < |b - p| then y else b

/-- `min(l, key=lambda x: abs(x - p))`: Python's `min` is a left fold of
`minStep` over the sequence, hence returns the first element attaining the
minimum; it raises on an empty sequence (modelled by `none`). -/
def argminAbs (p : ℚ) : List ℚ → Option ℚ
  | [] => none
  | x :: xs => some (xs.foldl (minStep p) x)

/-- `hist['Close'].pct_change().dropna()`: simple returns between
consecutive closes, the leading undefined entry dropped. -/
def pctChange (closes : List ℚ) : List ℚ :=
  List.zipWith (fun prev next => next / prev - 1) closes closes.tail

/-- Arithmetic mean of a list of rationals. -/
def listMean (l : List ℚ) : ℚ := l.sum / l.length

/-- Population variance (`np.std` uses `ddof=0`). -/
def popVar (l : List ℚ) : ℚ :=
  ((l.map fun x => (x - listMean l) ^ 2).sum) / l.length

/-- `hv = np.std(returns) * np.sqrt(252)`: population standard deviation of
the trailing-month returns, annualized. -/
noncomputable def hvOf (closes : List ℚ) : ℝ :=
  Real.sqrt ((popVar (pctChange closes) : ℚ) : ℝ) * Real.sqrt 252

/-- One CSV data row (the dict passed to `writer.writerow`).
Numeric fields carry the rounded values the script writes. -/
structure Row where
  symbol : String
  date : String
  currentPrice : ℚ
  expirationDate : String
  dte : ℤ
  atmStrike : ℚ
  callPrice : ℚ
  callIV : ℚ
  callDelta : ℚ
  callTheta : ℚ
  putPrice : ℚ
  putIV : ℚ
  putDelta : ℚ
  putTheta : ℚ
  hv : ℝ
  straddlePrice : ℚ
  impliedMovePct : ℚ
  rangeLow : ℚ
  rangeHigh : ℚ
  earningsDate : String

/-- Lines 84-130: derive the straddle metrics from the first matching call
record `c` and put record `pr` and build the CSV row. The mids and the
straddle price are computed unrounded; rounding happens only per field at
`writer.writerow`. -/
def mkRow (symbol now earnings e : String) (price : ℚ) (hvR : ℝ) (dte : ℤ)
    (atm : ℚ) (c pr : OptionRecord) : Row :=
  let call_mid := (c.bid + c.ask) / 2
  let put_mid := (pr.bid + pr.ask) / 2
  let straddle_price := call_mid + put_mid
  { symbol := symbol
    date := now
    currentPrice := round2 price
    expirationDate := e
    dte := dte
    atmStrike := atm
    callPrice := round2 call_mid
    callIV := round4 c.impliedVolatility
    callDelta := round4 (c.delta.getD 0)
    callTheta := round4 (c.theta.getD 0)
    putPrice := round2 put_mid
    putIV := round4 pr.impliedVolatility
    putDelta := round4 (pr.delta.getD 0)
    putTheta := round4 (pr.theta.getD 0)
    hv := hvR
    straddlePrice := round2 straddle_price
    impliedMovePct := round2 (straddle_price / price * 100)
    rangeLow := round2 (price - straddle_price)
    rangeHigh := round2 (price + straddle_price)
    earningsDate := earnings }

/-- Outcome of the body of the per-expiration loop (lines 63-130). -/
inductive ExpResult where
  | fetchError (e : String)
  | noATM (e : String) (strike : ℚ)
  | emitted (r : Row)
  | crash

/-- Lines 63-130, one iteration: fetch the chain (bare `except` → skip),
select the ATM strike with `min` (uncaught `ValueError` on empty calls →
crash), filter both sides at that strike, skip if either side is empty,
otherwise build the row from `iloc[0]` of each side. -/
def processExp (symbol now earnings : String) (price : ℚ) (hvR : ℝ)
    (d : String → ℤ) (ch : String → Option OptionChain) (e : String) :
    ExpResult :=
  match ch e with
  | none => .fetchError e
  | some oc =>
    match argminAbs price (oc.calls.map fun r => r.strike) with
    | none => .crash
    | some atm =>
      match (oc.calls.filter fun r => decide (r.strike = atm)).head?,
          (oc.puts.filter fun r => decide (r.strike = atm)).head? with
      | some c, some pr =>
        .emitted (mkRow symbol now earnings e price hvR (d e) atm c pr)
      | _, _ => .noATM e atm

/-- The messages the script prints (stdout observations). -/
inductive Message where
  | noHistoricalData (symbol : String)
  | noOptionData
  | chainError (e : String)
  | noATMFound (strike : ℚ) (e : String)
  | saved (file : String)
deriving DecidableEq

/-- A line appended to the CSV file: the header or a data row. -/
inductive CsvLine where
  | header
  | data (r : Row)

/-- The observable outcome of one run: printed messages, lines appended to
the CSV file, and whether the run died with an uncaught exception. -/
structure RunOutcome where
  messages : List Message
  writes : List CsvLine
  crashed : Bool

def csvFile : String := "straddle_results.csv"

/-- The loop over the (at most four) expirations. A crash stops the loop;
writes made before the crash persist (the `with` block flushes on exit). -/
def runLoop (symbol now earnings : String) (price : ℚ) (hvR : ℝ)
    (d : String → ℤ) (ch : String → Option OptionChain) :
    List String → List CsvLine × List Message × Bool
  | [] => ([], [], false)
  | e :: es =>
    match processExp symbol now earnings price hvR d ch e with
    | .crash => ([], [], true)
    | .fetchError _ =>
      let r := runLoop symbol now earnings price hvR d ch es
      (r.1, .chainError e :: r.2.1, r.2.2)
    | .noATM _ atm =>
      let r := runLoop symbol now earnings price hvR d ch es
      (r.1, .noATMFound atm e :: r.2.1, r.2.2)
    | .emitted row =>
      let r := runLoop symbol now earnings price hvR d ch es
      (.data row :: r.1, r.2.1, r.2.2)

/-- The whole script, parametrized over the annualized-volatility value
`hvR` it attaches to every row (the script computes it once, before the
loop). `fileExists` is `os.path.isfile(csv_file)` at the start of the run.
Fatal checks: empty 1-day history (lines 19-21), then empty expiration
list (lines 28-30) — both before the CSV file is opened, so neither writes
anything. Otherwise the header is written iff the file did not exist, the
loop runs over `options[:4]`, and on normal exit the confirmation line is
printed. -/
def run (symbol now : String) (fileExists : Bool) (hvR : ℝ) (p : Provider) :
    RunOutcome :=
  match p.histData.getLast? with
  | none => ⟨[.noHistoricalData symbol], [], false⟩
  | some price =>
    let exps := p.options.take 4
    if exps = [] then ⟨[.noOptionData], [], false⟩
    else
      let earnings := p.calendar.getD "N/A"
      let headerW : List CsvLine := if fileExists then [] else [.header]
      let r := runLoop symbol now earnings price hvR p.dteOf p.chain exps
      ⟨r.2.1 ++ (if r.2.2 then [] else [.saved csvFile]),
       headerW ++ r.1, r.2.2⟩

/-- The script with its actual HV value (`np.std(returns) * np.sqrt(252)`,
rounded to 4 decimals at `writer.writerow`). -/
noncomputable def runFull (symbol now : String) (fileExists : Bool)
    (p : Provider) : RunOutcome :=
  run symbol now fileExists (round4R (hvOf p.monthCloses)) p

/-- Is a CSV line the header line? -/
def isHeader : CsvLine → Bool
  | .header => true
  | .data _ => false

/-- Number of header lines among the given CSV lines. -/
def headerCount (l : List CsvLine) : ℕ := (l.filter isHeader).length

/-- Number of data rows among the given CSV lines. -/
def dataCount (l : List CsvLine) : ℕ :=
  (l.filter fun x => !isHeader x).length

/-! ### Concrete fixtures used by the examples inside the claims and by the
witnesses.  `exCall`/`exPut` are the spec's worked example: current price
150.00, ATM strike 150, call bid/ask 4.00/4.20, put bid/ask 3.80/4.00. -/

def exCall : OptionRecord :=
  { strike := 150, bid := 4, ask := 4.2, impliedVolatility := 0.25,
    delta := none, theta := none }

def exPut : OptionRecord :=
  { strike := 150, bid := 3.8, ask := 4, impliedVolatility := 0.25,
    delta := none, theta := none }

def exChain : OptionChain := { calls := [exCall], puts := [exPut] }

/-- Provider for the spec's worked example, with the spec's HV closes. -/
def exProvider : Provider :=
  { histData := [150], options := ["2026-01-16"],
    monthCloses := [100, 102, 101, 103], calendar := none,
    chain := fun _ => some exChain, dteOf := fun _ => 30 }

/-- A successfully fetched chain whose calls collection is empty: line 72's
`min` over `calls['strike']` then raises an uncaught `ValueError`. -/
def emptyCallsChain : OptionChain :=
  { calls := [],
    puts := [{ strike := 100, bid := 1, ask := 2, impliedVolatility := 0.5,
               delta := none, theta := none }] }

/-- Provider whose first expiration crashes strike selection while the
second would emit a row: used to exhibit the run-aborting behaviour. -/
def crashProvider : Provider :=
  { histData := [150], options := ["E1", "E2"],
    monthCloses := [100, 102, 101, 103], calendar := none,
    chain := fun e => if e = "E1" then some emptyCallsChain else some exChain,
    dteOf := fun _ => 30 }

/-- Provider with constant trailing-month closes: the single return is 0,
so the annualized historical volatility is exactly 0. -/
def flatProvider : Provider :=
  { histData := [150], options := ["2026-01-16"],
    monthCloses := [100, 100], calendar := none,
    chain := fun _ => some exChain, dteOf := fun _ => 30 }

/-- Provider returning empty 1-day history (first fatal check). -/
def emptyHistProvider : Provider :=
  { histData := [], options := ["2026-01-16"],
    monthCloses := [100, 102, 101, 103], calendar := none,
    chain := fun _ => some exChain, dteOf := fun _ => 30 }

/-- Provider with history but an empty expiration list (second fatal
check). -/
def noOptProvider : Provider :=
  { histData := [150], options := [], monthCloses := [100, 102, 101, 103],
    calendar := none, chain := fun _ => some exChain, dteOf := fun _ => 30 }

/-- A chain with a call at strike 150 but no put record at all: the ATM
put side is missing, so the expiration is skipped. -/
def noPutChain : OptionChain := { calls := [exCall], puts := [] }

/-- Provider whose single expiration has a chain lacking the ATM put: the
expiration is skipped, zero rows are appended, yet the run completes. -/
def noATMProvider : Provider :=
  { histData := [150], options := ["F2"],
    monthCloses := [100, 102, 101, 103], calendar := none,
    chain := fun _ => some noPutChain, dteOf := fun _ => 30 }

/-- A chain whose two call strikes 149 and 151 are equidistant from the
price 150: exercises the tie-break of the strike selection. -/
def tieChain : OptionChain :=
  { calls := [{ strike := 149, bid := 1, ask := 2, impliedVolatility := 0.5,
                delta := none, theta := none },
              { strike := 151, bid := 1, ask := 2, impliedVolatility := 0.5,
                delta := none, theta := none }],
    puts := [] }

/-- A chain with duplicate records at strike 150 on both sides; the first
record of each side differs from the later duplicates. -/
def dupChain : OptionChain :=
  { calls := [exCall,
      { strike := 150, bid := 9, ask := 9, impliedVolatility := 0.9,
        delta := some 1, theta := some 1 }],
    puts := [exPut,
      { strike := 150, bid := 7, ask := 7, impliedVolatility := 0.7,
        delta := some 1, theta := some 1 }] }

/-! ### Helper lemmas -/

/-- Characterization of the left fold of `minStep`: either the seed is
already minimal (and is kept), or the result is the first element of the
list that strictly beats the seed and every element before it. -/
theorem foldl_minStep_spec (p : ℚ) (ys : List ℚ) (b : ℚ) :
    (ys.foldl (minStep p) b = b ∧ ∀ x ∈ ys, |b - p| ≤ |x - p|) ∨
    (∃ m, ys.foldl (minStep p) b = m ∧ |m - p| < |b - p| ∧
      (∀ x ∈ ys, |m - p| ≤ |x - p|) ∧
      ∃ l₁ l₂, ys = l₁ ++ m :: l₂ ∧ ∀ x ∈ l₁, |m - p| < |x - p|) := by
  induction ys generalizing b with
  | nil => exact Or.inl ⟨rfl, by simp⟩
  | cons y ys ih =>
    rw [List.foldl_cons]
    by_cases hy : |y - p| < |b - p|
    · rw [show minStep p b y = y from if_pos hy]
      rcases ih y with ⟨heq, hall⟩ | ⟨m, heq, hlt, hall, l₁, l₂, hdec, hstrict⟩
      · refine Or.inr ⟨y, heq, hy, ?_, [], ys, by simp, by simp⟩
        intro x hx
        rcases List.mem_cons.mp hx with rfl | hx
        · exact le_refl _
        · exact hall x hx
      · refine Or.inr ⟨m, heq, lt_trans hlt hy, ?_, y :: l₁, l₂,
          by rw [hdec, List.cons_append], ?_⟩
        · intro x hx
          rcases List.mem_cons.mp hx with rfl | hx
          · exact le_of_lt hlt
          · exact hall x hx
        · intro x hx
          rcases List.mem_cons.mp hx with rfl | hx
          · exact hlt
          · exact hstrict x hx
    · have hy' : |b - p| ≤ |y - p| := le_of_not_lt hy
      rw [show minStep p b y = b from if_neg hy]
      rcases ih b with ⟨heq, hall⟩ | ⟨m, heq, hlt, hall, l₁, l₂, hdec, hstrict⟩
      · refine Or.inl ⟨heq, ?_⟩
        intro x hx
        rcases List.mem_cons.mp hx with rfl | hx
        · exact hy'
        · exact hall x hx
      · refine Or.inr ⟨m, heq, hlt, ?_, y :: l₁, l₂,
          by rw [hdec, List.cons_append], ?_⟩
        · intro x hx
          rcases List.mem_cons.mp hx with rfl | hx
          · exact le_of_lt (lt_of_lt_of_le hlt hy')
          · exact hall x hx
        · intro x hx
          rcases List.mem_cons.mp hx with rfl | hx
          · exact lt_of_lt_of_le hlt hy'
          · exact hstrict x hx

/-- `argminAbs` returns a member of the list that minimizes the distance to
`p`, and every element occurring before it in the list is strictly farther
from `p` (so ties are broken in favour of the first occurrence). -/
theorem argminAbs_spec (p : ℚ) (l : List ℚ) (m : ℚ)
    (h : argminAbs p l = some m) :
    m ∈ l ∧ (∀ x ∈ l, |m - p| ≤ |x - p|) ∧
    ∃ l₁ l₂, l = l₁ ++ m :: l₂ ∧ ∀ x ∈ l₁, |m - p| < |x - p| := by
  cases l with
  | nil => simp [argminAbs] at h
  | cons x xs =>
    simp only [argminAbs, Option.some.injEq] at h
    rcases foldl_minStep_spec p xs x with ⟨heq, hall⟩ |
        ⟨m', heq, hlt, hall, l₁, l₂, hdec, hstrict⟩
    · have hm : m = x := h.symm.trans heq
      subst hm
      refine ⟨List.mem_cons_self _ _, ?_, [], xs, rfl, by simp⟩
      intro z hz
      rcases List.mem_cons.mp hz with rfl | hz
      · exact le_refl _
      · exact hall z hz
    · have hm : m = m' := h.symm.trans heq
      subst hm
      refine ⟨List.mem_cons_of_mem _ (hdec ▸ List.mem_append_right l₁
        (List.mem_cons_self _ _)), ?_, x :: l₁, l₂,
        by rw [hdec, List.cons_append], ?_⟩
      · intro z hz
        rcases List.mem_cons.mp hz with rfl | hz
        · exact le_of_lt hlt
        · exact hall z hz
      · intro z hz
        rcases List.mem_cons.mp hz with rfl | hz
        · exact hlt
        · exact hstrict z hz

/-- `argminAbs` succeeds exactly on nonempty lists. -/
theorem argminAbs_isSome (p : ℚ) (x : ℚ) (xs : List ℚ) :
    argminAbs p (x :: xs) = some (xs.foldl (minStep p) x) := rfl

/-- The head of a filtered list is the first element satisfying the
predicate (`iloc[0]` of the filtered DataFrame = first match). -/
theorem head_filter_eq_find (q : α → Bool) (l : List α) :
    (l.filter q).head? = l.find? q := by
  induction l with
  | nil => rfl
  | cons x xs ih =>
    by_cases hx : q x
    · simp [List.filter_cons, hx, List.find?]
    · simp [List.filter_cons, hx, List.find?, ih]

/-- If the chain fetch succeeds, strike selection succeeds, and both sides
have a first record at the selected strike, the loop body emits the row
built from those two first records. -/
theorem processExp_eq_emitted {sym now earn e : String} {price : ℚ} {hvR : ℝ}
    {d : String → ℤ} {ch : String → Option OptionChain} {oc : OptionChain}
    {atm : ℚ} {c pr : OptionRecord}
    (hch : ch e = some oc)
    (hatm : argminAbs price (oc.calls.map fun x => x.strike) = some atm)
    (hc : (oc.calls.filter fun x => decide (x.strike = atm)).head? = some c)
    (hp : (oc.puts.filter fun x => decide (x.strike = atm)).head? = some pr) :
    processExp sym now earn price hvR d ch e =
      .emitted (mkRow sym now earn e price hvR (d e) atm c pr) := by
  simp only [processExp, hch, hatm, hc, hp]

/-- Inversion: every emitted row arises from a successful fetch, a
successful strike selection, and the first matching record on each side. -/
theorem processExp_emitted_inv {sym now earn e : String} {price : ℚ} {hvR : ℝ}
    {d : String → ℤ} {ch : String → Option OptionChain} {r : Row}
    (h : processExp sym now earn price hvR d ch e = .emitted r) :
    ∃ oc atm c pr,
      ch e = some oc ∧
      argminAbs price (oc.calls.map fun x => x.strike) = some atm ∧
      (oc.calls.filter fun x => decide (x.strike = atm)).head? = some c ∧
      (oc.puts.filter fun x => decide (x.strike = atm)).head? = some pr ∧
      r = mkRow sym now earn e price hvR (d e) atm c pr := by
  unfold processExp at h
  split at h
  · cases h
  · rename_i oc hch
    split at h
    · cases h
    · rename_i atm hatm
      split at h
      · rename_i c pr hc hp
        exact ⟨oc, atm, c, pr, hch, hatm, hc, hp, (ExpResult.emitted.inj h).symm⟩
      · cases h

/-- Rounding to 2 decimals moves a value by at most `1/200`. -/
theorem abs_round2_sub (x : ℚ) : |round2 x - x| ≤ 1 / 200 := by
  have h := abs_sub_round (x * 100)
  rw [abs_sub_comm] at h
  have e : round2 x - x = ((round (x * 100) : ℤ) - x * 100) / 100 := by
    unfold round2; ring
  rw [e, abs_div]
  have e2 : |(100 : ℚ)| = 100 := by norm_num
  rw [e2]
  linarith

/-- The loop never writes a header line. -/
theorem runLoop_headerCount (sym now earn : String) (price : ℚ) (hvR : ℝ)
    (d : String → ℤ) (ch : String → Option OptionChain) (es : List String) :
    headerCount (runLoop sym now earn price hvR d ch es).1 = 0 := by
  induction es with
  | nil => rfl
  | cons e es ih =>
    cases hpe : processExp sym now earn price hvR d ch e with
    | crash => simp [runLoop, hpe, headerCount]
    | fetchError e' => simpa [runLoop, hpe, headerCount] using ih
    | noATM e' s => simpa [runLoop, hpe, headerCount] using ih
    | emitted row =>
      simpa [runLoop, hpe, headerCount, List.filter_cons, isHeader] using ih

/-- The loop writes at most one line per expiration. -/
theorem runLoop_length_le (sym now earn : String) (price : ℚ) (hvR : ℝ)
    (d : String → ℤ) (ch : String → Option OptionChain) (es : List String) :
    (runLoop sym now earn price hvR d ch es).1.length ≤ es.length := by
  induction es with
  | nil => simp [runLoop]
  | cons e es ih =>
    cases hpe : processExp sym now earn price hvR d ch e with
    | crash => simp [runLoop, hpe]
    | fetchError e' =>
      simp only [runLoop, hpe]
      exact le_trans ih (Nat.le_succ _)
    | noATM e' s =>
      simp only [runLoop, hpe]
      exact le_trans ih (Nat.le_succ _)
    | emitted row =>
      simp only [runLoop, hpe, List.length_cons]
      exact Nat.succ_le_succ ih

/-- Every data row the loop writes carries the single hv value computed
before the loop. -/
theorem runLoop_row_hv (sym now earn : String) (price : ℚ) (hvR : ℝ)
    (d : String → ℤ) (ch : String → Option OptionChain) (es : List String) :
    ∀ row : Row, CsvLine.data row ∈ (runLoop sym now earn price hvR d ch es).1 →
      row.hv = hvR := by
  induction es with
  | nil => intro row hrow; simp [runLoop] at hrow
  | cons e es ih =>
    intro row hrow
    cases hpe : processExp sym now earn price hvR d ch e with
    | crash => rw [runLoop, hpe] at hrow; simp at hrow
    | fetchError e' => rw [runLoop, hpe] at hrow; exact ih row hrow
    | noATM e' s => rw [runLoop, hpe] at hrow; exact ih row hrow
    | emitted row' =>
      rw [runLoop, hpe] at hrow
      rcases List.mem_cons.mp hrow with heq | hmem
      · obtain ⟨oc, atm, c, pr, -, -, -, -, hr⟩ := processExp_emitted_inv hpe
        have hrr : row = row' := CsvLine.data.inj heq
        rw [hrr, hr]
        rfl
      · exact ih row hmem

/-- Inversion: the loop body crashes exactly when the chain fetch succeeds
but the calls collection is empty (line 72's `min` over an empty
sequence). -/
theorem processExp_crash_inv {sym now earn e : String} {price : ℚ} {hvR : ℝ}
    {d : String → ℤ} {ch : String → Option OptionChain}
    (h : processExp sym now earn price hvR d ch e = .crash) :
    ∃ oc, ch e = some oc ∧ oc.calls = [] := by
  unfold processExp at h
  split at h
  · cases h
  · rename_i oc hch
    split at h
    · rename_i hatm
      refine ⟨oc, hch, ?_⟩
      cases hcalls : oc.calls with
      | nil => rfl
      | cons a as => rw [hcalls] at hatm; simp [argminAbs] at hatm
    · rename_i atm hatm
      split at h
      · cases h
      · cases h

/-- If every successfully fetched chain has a nonempty calls collection,
the loop never crashes. -/
theorem runLoop_no_crash (sym now earn : String) (price : ℚ) (hvR : ℝ)
    (d : String → ℤ) (ch : String → Option OptionChain) (es : List String)
    (h : ∀ e ∈ es, ∀ oc, ch e = some oc → oc.calls ≠ []) :
    (runLoop sym now earn price hvR d ch es).2.2 = false := by
  induction es with
  | nil => rfl
  | cons e es ih =>
    have ih' := ih fun e' he' => h e' (List.mem_cons_of_mem _ he')
    cases hpe : processExp sym now earn price hvR d ch e with
    | crash =>
      obtain ⟨oc, hch, hnil⟩ := processExp_crash_inv hpe
      exact absurd hnil (h e (List.mem_cons_self _ _) oc hch)
    | fetchError e' => simpa [runLoop, hpe] using ih'
    | noATM e' s => simpa [runLoop, hpe] using ih'
    | emitted row => simpa [runLoop, hpe] using ih'

/-- `headerCount` is additive over append. -/
theorem headerCount_append (a b : List CsvLine) :
    headerCount (a ++ b) = headerCount a + headerCount b := by
  simp [headerCount, List.filter_append]

/-- `dataCount` is additive over append. -/
theorem dataCount_append (a b : List CsvLine) :
    dataCount (a ++ b) = dataCount a + dataCount b := by
  simp [dataCount, List.filter_append]

/-- `dataCount` is bounded by the number of lines. -/
theorem dataCount_le_length (l : List CsvLine) : dataCount l ≤ l.length :=
  List.length_filter_le _ _

/-! ### The claims -/

/-- Claim C1: for every processed expiration with ATM call and put records
present, the emitted metrics satisfy `call_mid = (call.bid + call.ask)/2`,
`put_mid = (put.bid + put.ask)/2`, `straddle_price = call_mid + put_mid`
and `implied_move_pct = 100 * straddle_price / current_price`, each within
rounding to 2 decimals, with no fallback or validation on the bid/ask
values (the hypotheses place no constraint on them, so the mids may be 0
or negative).  In particular, for current price 150.00, call bid/ask
4.00/4.20 and put bid/ask 3.80/4.00, the emitted row has straddle price
8.00, implied move 5.33, range low 142.00 and range high 158.00. -/
theorem C1_straddle_metrics (sym now earn e : String) (price : ℚ) (hvR : ℝ)
    (d : String → ℤ) (ch : String → Option OptionChain) (oc : OptionChain)
    (atm : ℚ) (c pr : OptionRecord)
    (hch : ch e = some oc)
    (hatm : argminAbs price (oc.calls.map fun x => x.strike) = some atm)
    (hc : (oc.calls.filter fun x => decide (x.strike = atm)).head? = some c)
    (hp : (oc.puts.filter fun x => decide (x.strike = atm)).head? = some pr) :
    processExp sym now earn price hvR d ch e =
      .emitted (mkRow sym now earn e price hvR (d e) atm c pr) ∧
    (mkRow sym now earn e price hvR (d e) atm c pr).callPrice =
      round2 ((c.bid + c.ask) / 2) ∧
    (mkRow sym now earn e price hvR (d e) atm c pr).putPrice =
      round2 ((pr.bid + pr.ask) / 2) ∧
    (mkRow sym now earn e price hvR (d e) atm c pr).straddlePrice =
      round2 ((c.bid + c.ask) / 2 + (pr.bid + pr.ask) / 2) ∧
    (mkRow sym now earn e price hvR (d e) atm c pr).impliedMovePct =
      round2 (100 * ((c.bid + c.ask) / 2 + (pr.bid + pr.ask) / 2) / price) ∧
    ((mkRow "AAPL" now "N/A" "2026-01-16" 150 hvR 30 150 exCall
        exPut).straddlePrice = 8 ∧
     (mkRow "AAPL" now "N/A" "2026-01-16" 150 hvR 30 150 exCall
        exPut).impliedMovePct = 533 / 100 ∧
     (mkRow "AAPL" now "N/A" "2026-01-16" 150 hvR 30 150 exCall
        exPut).rangeLow = 142 ∧
     (mkRow "AAPL" now "N/A" "2026-01-16" 150 hvR 30 150 exCall
        exPut).rangeHigh = 158) := by
  refine ⟨processExp_eq_emitted hch hatm hc hp, rfl, rfl, rfl, ?_, ?_, ?_, ?_, ?_⟩
  · show round2 (((c.bid + c.ask) / 2 + (pr.bid + pr.ask) / 2) / price * 100) =
      round2 (100 * ((c.bid + c.ask) / 2 + (pr.bid + pr.ask) / 2) / price)
    congr 1
    ring
  · norm_num [mkRow, exCall, exPut, round2, round_eq]
  · norm_num [mkRow, exCall, exPut, round2, round_eq]
  · norm_num [mkRow, exCall, exPut, round2, round_eq]
  · norm_num [mkRow, exCall, exPut, round2, round_eq]

/-- Witness for C1 at the spec's worked example. -/
theorem C1_straddle_metrics_witness :
    processExp "AAPL" "T" "N/A" 150 0 (fun _ => 30) (fun _ => some exChain)
      "2026-01-16" =
      .emitted (mkRow "AAPL" "T" "N/A" "2026-01-16" 150 0 30 150 exCall
        exPut) ∧
    (mkRow "AAPL" "T" "N/A" "2026-01-16" 150 0 30 150 exCall
      exPut).callPrice = round2 ((exCall.bid + exCall.ask) / 2) ∧
    (mkRow "AAPL" "T" "N/A" "2026-01-16" 150 0 30 150 exCall
      exPut).putPrice = round2 ((exPut.bid + exPut.ask) / 2) ∧
    (mkRow "AAPL" "T" "N/A" "2026-01-16" 150 0 30 150 exCall
      exPut).straddlePrice =
      round2 ((exCall.bid + exCall.ask) / 2 + (exPut.bid + exPut.ask) / 2) ∧
    (mkRow "AAPL" "T" "N/A" "2026-01-16" 150 0 30 150 exCall
      exPut).impliedMovePct =
      round2 (100 * ((exCall.bid + exCall.ask) / 2 +
        (exPut.bid + exPut.ask) / 2) / 150) ∧
    ((mkRow "AAPL" "T" "N/A" "2026-01-16" 150 0 30 150 exCall
        exPut).straddlePrice = 8 ∧
     (mkRow "AAPL" "T" "N/A" "2026-01-16" 150 0 30 150 exCall
        exPut).impliedMovePct = 533 / 100 ∧
     (mkRow "AAPL" "T" "N/A" "2026-01-16" 150 0 30 150 exCall
        exPut).rangeLow = 142 ∧
     (mkRow "AAPL" "T" "N/A" "2026-01-16" 150 0 30 150 exCall
        exPut).rangeHigh = 158) :=
  C1_straddle_metrics "AAPL" "T" "N/A" "2026-01-16" 150 0 (fun _ => 30)
    (fun _ => some exChain) exChain 150 exCall exPut rfl
    (by simp [exChain, exCall, argminAbs])
    (by simp [exChain, exCall])
    (by simp [exChain, exPut])

/-- Claim C2: for every emitted row, the range columns are the rounded
values of `current_price - straddle_price` and
`current_price + straddle_price`; the unrounded values sum to exactly
`2 * current_price`, and the rounded values sum to within 1/100 of it,
for every value of the straddle price. -/
theorem C2_range_symmetry (sym now earn e : String) (price : ℚ) (hvR : ℝ)
    (d : String → ℤ) (ch : String → Option OptionChain) (r : Row)
    (h : processExp sym now earn price hvR d ch e = .emitted r) :
    ∃ s : ℚ, r.straddlePrice = round2 s ∧
      r.rangeLow = round2 (price - s) ∧
      r.rangeHigh = round2 (price + s) ∧
      (price - s) + (price + s) = 2 * price ∧
      |r.rangeLow + r.rangeHigh - 2 * price| ≤ 1 / 100 := by
  obtain ⟨oc, atm, c, pr, -, -, -, -, hr⟩ := processExp_emitted_inv h
  subst hr
  refine ⟨(c.bid + c.ask) / 2 + (pr.bid + pr.ask) / 2, rfl, rfl, rfl,
    by ring, ?_⟩
  have h1 := abs_round2_sub (price - ((c.bid + c.ask) / 2 +
    (pr.bid + pr.ask) / 2))
  have h2 := abs_round2_sub (price + ((c.bid + c.ask) / 2 +
    (pr.bid + pr.ask) / 2))
  show |round2 (price - ((c.bid + c.ask) / 2 + (pr.bid + pr.ask) / 2)) +
    round2 (price + ((c.bid + c.ask) / 2 + (pr.bid + pr.ask) / 2)) -
    2 * price| ≤ 1 / 100
  have key : round2 (price - ((c.bid + c.ask) / 2 + (pr.bid + pr.ask) / 2)) +
      round2 (price + ((c.bid + c.ask) / 2 + (pr.bid + pr.ask) / 2)) -
      2 * price =
      (round2 (price - ((c.bid + c.ask) / 2 + (pr.bid + pr.ask) / 2)) -
        (price - ((c.bid + c.ask) / 2 + (pr.bid + pr.ask) / 2))) +
      (round2 (price + ((c.bid + c.ask) / 2 + (pr.bid + pr.ask) / 2)) -
        (price + ((c.bid + c.ask) / 2 + (pr.bid + pr.ask) / 2))) := by ring
  rw [key]
  exact le_trans (abs_add _ _) (by linarith)

/-- Witness for C2 at the spec's worked example. -/
theorem C2_range_symmetry_witness :
    ∃ s : ℚ,
      (mkRow "AAPL" "T" "N/A" "2026-01-16" 150 0 30 150 exCall
        exPut).straddlePrice = round2 s ∧
      (mkRow "AAPL" "T" "N/A" "2026-01-16" 150 0 30 150 exCall
        exPut).rangeLow = round2 (150 - s) ∧
      (mkRow "AAPL" "T" "N/A" "2026-01-16" 150 0 30 150 exCall
        exPut).rangeHigh = round2 (150 + s) ∧
      (150 - s) + (150 + s) = 2 * 150 ∧
      |(mkRow "AAPL" "T" "N/A" "2026-01-16" 150 0 30 150 exCall
          exPut).rangeLow +
        (mkRow "AAPL" "T" "N/A" "2026-01-16" 150 0 30 150 exCall
          exPut).rangeHigh - 2 * 150| ≤ 1 / 100 :=
  C2_range_symmetry "AAPL" "T" "N/A" "2026-01-16" 150 0 (fun _ => 30)
    (fun _ => some exChain)
    (mkRow "AAPL" "T" "N/A" "2026-01-16" 150 0 30 150 exCall exPut)
    (by simp [processExp, exChain, exCall, exPut, argminAbs])

/-- Claim C3: the selected ATM strike is a strike occurring in the calls
collection (a strike occurring only in the puts collection is never
selected) that minimizes the absolute difference to the current price,
and every strike listed before it in the calls collection is strictly
farther from the current price — so on ties the first occurrence in the
calls collection's order wins. -/
theorem C3_atm_selection (price : ℚ) (oc : OptionChain) (atm : ℚ)
    (hatm : argminAbs price (oc.calls.map fun x => x.strike) = some atm) :
    atm ∈ oc.calls.map (fun x => x.strike) ∧
    (∀ s ∈ oc.calls.map (fun x => x.strike), |atm - price| ≤ |s - price|) ∧
    (∃ l₁ l₂, oc.calls.map (fun x => x.strike) = l₁ ++ atm :: l₂ ∧
      ∀ s ∈ l₁, |atm - price| < |s - price|) ∧
    ∀ s : ℚ, s ∉ oc.calls.map (fun x => x.strike) → atm ≠ s := by
  obtain ⟨hmem, hmin, hfirst⟩ := argminAbs_spec price _ atm hatm
  exact ⟨hmem, hmin, hfirst, fun s hs heq => hs (heq ▸ hmem)⟩

/-- Witness for C3 on an equidistant pair: at price 150 the strikes 149
and 151 tie, and the first listed (149) is selected. -/
theorem C3_atm_selection_witness :
    (149 : ℚ) ∈ tieChain.calls.map (fun x => x.strike) ∧
    (∀ s ∈ tieChain.calls.map (fun x => x.strike),
      |(149 : ℚ) - 150| ≤ |s - 150|) ∧
    (∃ l₁ l₂, tieChain.calls.map (fun x => x.strike) = l₁ ++ 149 :: l₂ ∧
      ∀ s ∈ l₁, |(149 : ℚ) - 150| < |s - 150|) ∧
    ∀ s : ℚ, s ∉ tieChain.calls.map (fun x => x.strike) → (149 : ℚ) ≠ s :=
  C3_atm_selection 150 tieChain 149
    (by simp [tieChain, argminAbs, minStep]; norm_num)

/-- Claim C5: on an empty 1-day history the program prints the
"no historical data" message and terminates with zero CSV writes of any
kind; on a non-empty history but an empty expiration list it prints the
"no option data" message and terminates with zero CSV writes of any kind.
Both checks run before the CSV file is even opened. -/
theorem C5_fatal_paths (sym now : String) (fe : Bool) (hvR : ℝ)
    (p : Provider) :
    (p.histData = [] →
      run sym now fe hvR p =
        ⟨[.noHistoricalData sym], [], false⟩) ∧
    (p.histData ≠ [] → p.options = [] →
      run sym now fe hvR p = ⟨[.noOptionData], [], false⟩) := by
  constructor
  · intro h0
    have hg : p.histData.getLast? = none := by rw [h0]; rfl
    simp [run, hg]
  · intro h0 h1
    cases hg : p.histData.getLast? with
    | none => exact absurd (List.getLast?_eq_none_iff.mp hg) h0
    | some price => simp [run, hg, h1]

/-- Witness for C5 at concrete fatal providers. -/
theorem C5_fatal_paths_witness :
    (emptyHistProvider.histData = [] ∧
      run "AAPL" "T" true 0 emptyHistProvider =
        ⟨[.noHistoricalData "AAPL"], [], false⟩) ∧
    (noOptProvider.histData ≠ [] ∧ noOptProvider.options = [] ∧
      run "AAPL" "T" false 0 noOptProvider =
        ⟨[.noOptionData], [], false⟩) :=
  ⟨⟨rfl, (C5_fatal_paths "AAPL" "T" true 0 emptyHistProvider).1 rfl⟩,
   ⟨by simp [noOptProvider], rfl,
    (C5_fatal_paths "AAPL" "T" false 0 noOptProvider).2
      (by simp [noOptProvider]) rfl⟩⟩

/-- Claim C8: when the delta or theta field is absent from the call or put
record, the corresponding row value defaults to 0 with no error raised;
the impliedVolatility field is read unconditionally (it is a required
field of the record, and the row always carries its rounded value). -/
theorem C8_greek_defaults (sym now earn e : String) (price : ℚ) (hvR : ℝ)
    (d : String → ℤ) (ch : String → Option OptionChain) (oc : OptionChain)
    (atm : ℚ) (c pr : OptionRecord)
    (hch : ch e = some oc)
    (hatm : argminAbs price (oc.calls.map fun x => x.strike) = some atm)
    (hc : (oc.calls.filter fun x => decide (x.strike = atm)).head? = some c)
    (hp : (oc.puts.filter fun x => decide (x.strike = atm)).head? = some pr) :
    processExp sym now earn price hvR d ch e =
      .emitted (mkRow sym now earn e price hvR (d e) atm c pr) ∧
    (mkRow sym now earn e price hvR (d e) atm c pr).callIV =
      round4 c.impliedVolatility ∧
    (mkRow sym now earn e price hvR (d e) atm c pr).putIV =
      round4 pr.impliedVolatility ∧
    (c.delta = none →
      (mkRow sym now earn e price hvR (d e) atm c pr).callDelta = 0) ∧
    (c.theta = none →
      (mkRow sym now earn e price hvR (d e) atm c pr).callTheta = 0) ∧
    (pr.delta = none →
      (mkRow sym now earn e price hvR (d e) atm c pr).putDelta = 0) ∧
    (pr.theta = none →
      (mkRow sym now earn e price hvR (d e) atm c pr).putTheta = 0) := by
  refine ⟨processExp_eq_emitted hch hatm hc hp, rfl, rfl, ?_, ?_, ?_, ?_⟩
  all_goals intro h0
  all_goals simp [mkRow, h0, round4]

/-- Witness for C8: `exCall` and `exPut` carry no delta/theta. -/
theorem C8_greek_defaults_witness :
    processExp "AAPL" "T" "N/A" 150 0 (fun _ => 30) (fun _ => some exChain)
      "2026-01-16" =
      .emitted (mkRow "AAPL" "T" "N/A" "2026-01-16" 150 0 30 150 exCall
        exPut) ∧
    (mkRow "AAPL" "T" "N/A" "2026-01-16" 150 0 30 150 exCall
      exPut).callIV = round4 exCall.impliedVolatility ∧
    (mkRow "AAPL" "T" "N/A" "2026-01-16" 150 0 30 150 exCall
      exPut).putIV = round4 exPut.impliedVolatility ∧
    (exCall.delta = none →
      (mkRow "AAPL" "T" "N/A" "2026-01-16" 150 0 30 150 exCall
        exPut).callDelta = 0) ∧
    (exCall.theta = none →
      (mkRow "AAPL" "T" "N/A" "2026-01-16" 150 0 30 150 exCall
        exPut).callTheta = 0) ∧
    (exPut.delta = none →
      (mkRow "AAPL" "T" "N/A" "2026-01-16" 150 0 30 150 exCall
        exPut).putDelta = 0) ∧
    (exPut.theta = none →
      (mkRow "AAPL" "T" "N/A" "2026-01-16" 150 0 30 150 exCall
        exPut).putTheta = 0) :=
  C8_greek_defaults "AAPL" "T" "N/A" "2026-01-16" 150 0 (fun _ => 30)
    (fun _ => some exChain) exChain 150 exCall exPut rfl
    (by simp [exChain, exCall, argminAbs])
    (by simp [exChain, exCall])
    (by simp [exChain, exPut])

/-- Claim C9 (implicit): when several call or put records exist at the
selected ATM strike, the `iloc[0]` record — the first match in provider
order on each side — is the one the emitted row is built from, so the
later duplicates do not affect the row. -/
theorem C9_first_duplicate_used (sym now earn e : String) (price : ℚ)
    (hvR : ℝ) (d : String → ℤ) (ch : String → Option OptionChain)
    (oc : OptionChain) (atm : ℚ) (c pr : OptionRecord)
    (hch : ch e = some oc)
    (hatm : argminAbs price (oc.calls.map fun x => x.strike) = some atm)
    (hc : oc.calls.find? (fun x => decide (x.strike = atm)) = some c)
    (hp : oc.puts.find? (fun x => decide (x.strike = atm)) = some pr) :
    processExp sym now earn price hvR d ch e =
      .emitted (mkRow sym now earn e price hvR (d e) atm c pr) :=
  processExp_eq_emitted hch hatm
    (by rw [head_filter_eq_find]; exact hc)
    (by rw [head_filter_eq_find]; exact hp)

/-- Witness for C9 on `dupChain`, whose second records at strike 150
differ from the first: the emitted row is built from the first records
(`exCall`, `exPut`), ignoring the duplicates. -/
theorem C9_first_duplicate_used_witness :
    processExp "AAPL" "T" "N/A" 150 0 (fun _ => 30) (fun _ => some dupChain)
      "2026-01-16" =
      .emitted (mkRow "AAPL" "T" "N/A" "2026-01-16" 150 0 30 150 exCall
        exPut) :=
  C9_first_duplicate_used "AAPL" "T" "N/A" "2026-01-16" 150 0 (fun _ => 30)
    (fun _ => some dupChain) dupChain 150 exCall exPut rfl
    (by simp [dupChain, exCall, argminAbs, minStep])
    (by simp [dupChain, exCall, List.find?])
    (by simp [dupChain, exPut, List.find?])

/-- Counterexample to C6 as stated: a per-expiration failure CAN abort the
run.  For `crashProvider`, the chain fetch for "E1" succeeds but returns an
empty calls collection, so line 72's `min` raises an uncaught `ValueError`:
the run crashes with no skip message for "E1", and the remaining
expiration "E2" (which would have produced a row) is never processed — the
outcome has no messages and no writes at all. -/
theorem C6_counterexample :
    crashProvider.chain "E1" = some emptyCallsChain ∧
    crashProvider.options = ["E1", "E2"] ∧
    run "AAPL" "T" true 0 crashProvider = ⟨[], [], true⟩ := by
  refine ⟨rfl, rfl, ?_⟩
  simp [run, runLoop, processExp, crashProvider, emptyCallsChain, argminAbs]

/-- Claim C6, amended: an option-chain fetch failure, or the absence of a
call or put record at the selected ATM strike, causes that expiration to
be skipped with a printed message (the missing-ATM message identifies the
expiration and the strike) and no row emitted, while the loop continues
with the remaining expirations exactly as before — provided the strike
selection itself succeeded; a successfully fetched chain with an empty
calls collection instead raises an uncaught error that aborts the run. -/
theorem C6_skip_and_continue (sym now earn e : String) (price : ℚ)
    (hvR : ℝ) (d : String → ℤ) (ch : String → Option OptionChain)
    (es : List String) :
    (ch e = none →
      runLoop sym now earn price hvR d ch (e :: es) =
        ((runLoop sym now earn price hvR d ch es).1,
         .chainError e :: (runLoop sym now earn price hvR d ch es).2.1,
         (runLoop sym now earn price hvR d ch es).2.2)) ∧
    (∀ oc atm, ch e = some oc →
      argminAbs price (oc.calls.map fun x => x.strike) = some atm →
      ((oc.calls.filter fun x => decide (x.strike = atm)).head? = none ∨
        (oc.puts.filter fun x => decide (x.strike = atm)).head? = none) →
      runLoop sym now earn price hvR d ch (e :: es) =
        ((runLoop sym now earn price hvR d ch es).1,
         .noATMFound atm e :: (runLoop sym now earn price hvR d ch es).2.1,
         (runLoop sym now earn price hvR d ch es).2.2)) := by
  constructor
  · intro h0
    have hpe : processExp sym now earn price hvR d ch e = .fetchError e := by
      simp [processExp, h0]
    simp [runLoop, hpe]
  · intro oc atm h0 h1 h2
    have hpe : processExp sym now earn price hvR d ch e = .noATM e atm := by
      rcases h2 with h2 | h2
      · simp [processExp, h0, h1, h2]
      · cases hcall : (oc.calls.filter fun x => decide (x.strike = atm)).head?
          with
        | none => simp [processExp, h0, h1, hcall]
        | some c => simp [processExp, h0, h1, hcall, h2]
    simp [runLoop, hpe]

/-- Witness for the amended C6: a failing fetch for "F1" and a chain with
a call but no put at the ATM strike for "F2". -/
theorem C6_skip_and_continue_witness :
    ((fun e => if e = "F1" then none else some noPutChain) "F1" =
        (none : Option OptionChain) ∧
      runLoop "AAPL" "T" "N/A" 150 0 (fun _ => 30)
        (fun e => if e = "F1" then none else some noPutChain) ["F1"] =
        ((runLoop "AAPL" "T" "N/A" 150 0 (fun _ => 30)
            (fun e => if e = "F1" then none else some noPutChain) []).1,
         .chainError "F1" :: (runLoop "AAPL" "T" "N/A" 150 0 (fun _ => 30)
            (fun e => if e = "F1" then none else some noPutChain) []).2.1,
         (runLoop "AAPL" "T" "N/A" 150 0 (fun _ => 30)
            (fun e => if e = "F1" then none else some noPutChain) []).2.2)) ∧
    runLoop "AAPL" "T" "N/A" 150 0 (fun _ => 30)
        (fun _ => some noPutChain) ["F2"] =
      ((runLoop "AAPL" "T" "N/A" 150 0 (fun _ => 30)
          (fun _ => some noPutChain) []).1,
       .noATMFound 150 "F2" :: (runLoop "AAPL" "T" "N/A" 150 0 (fun _ => 30)
          (fun _ => some noPutChain) []).2.1,
       (runLoop "AAPL" "T" "N/A" 150 0 (fun _ => 30)
          (fun _ => some noPutChain) []).2.2) :=
  ⟨⟨by simp,
    (C6_skip_and_continue "AAPL" "T" "N/A" "F1" 150 0 (fun _ => 30)
        (fun e => if e = "F1" then none else some noPutChain) []).1
      (by simp)⟩,
   (C6_skip_and_continue "AAPL" "T" "N/A" "F2" 150 0 (fun _ => 30)
        (fun _ => some noPutChain) []).2 noPutChain 150 rfl
      (by simp [noPutChain, exCall, argminAbs])
      (Or.inr (by simp [noPutChain]))⟩

/-- Claim C7: a run writes the header at most once — never when the file
already exists (so appending to a file that already has its header cannot
duplicate it), exactly once when the file is fresh and the fatal checks
pass — and appends at most 4 data rows, since only `options[:4]` is
processed. -/
theorem C7_header_once_rows_le_four (sym now : String) (fe : Bool)
    (hvR : ℝ) (p : Provider) :
    (fe = true → headerCount (run sym now fe hvR p).writes = 0) ∧
    (fe = false → p.histData ≠ [] → p.options ≠ [] →
      headerCount (run sym now fe hvR p).writes = 1) ∧
    headerCount (run sym now fe hvR p).writes ≤ 1 ∧
    dataCount (run sym now fe hvR p).writes ≤ 4 ∧
    ∀ old : List CsvLine, headerCount old = 1 → fe = true →
      headerCount (old ++ (run sym now fe hvR p).writes) = 1 := by
  cases hg : p.histData.getLast? with
  | none =>
    have hw : (run sym now fe hvR p).writes = [] := by simp [run, hg]
    refine ⟨fun _ => by simp [hw, headerCount],
      fun _ h0 _ => absurd (List.getLast?_eq_none_iff.mp hg) h0,
      by simp [hw, headerCount], by simp [hw, dataCount],
      fun old h1 _ => by simp [hw, h1]⟩
  | some price =>
    by_cases hexp : p.options.take 4 = []
    · have hw : (run sym now fe hvR p).writes = [] := by
        simp [run, hg, hexp]
      have hopt : p.options = [] := by
        cases ho : p.options with
        | nil => rfl
        | cons a as => rw [ho] at hexp; simp at hexp
      refine ⟨fun _ => by simp [hw, headerCount],
        fun _ _ h1 => absurd hopt h1,
        by simp [hw, headerCount], by simp [hw, dataCount],
        fun old h1 _ => by simp [hw, h1]⟩
    · have hw : (run sym now fe hvR p).writes =
          (if fe then [] else [.header]) ++
          (runLoop sym now (p.calendar.getD "N/A") price hvR p.dteOf
            p.chain (p.options.take 4)).1 := by
        simp [run, hg, hexp]
      have hloop := runLoop_headerCount sym now (p.calendar.getD "N/A")
        price hvR p.dteOf p.chain (p.options.take 4)
      have hc0 : fe = true → headerCount (run sym now fe hvR p).writes = 0 := by
        intro hfe
        rw [hw, headerCount_append, hfe, hloop]
        simp [headerCount]
      have hc1 : fe = false →
          headerCount (run sym now fe hvR p).writes = 1 := by
        intro hfe
        rw [hw, headerCount_append, hfe, hloop]
        simp [headerCount, isHeader]
      refine ⟨hc0, fun hfe _ _ => hc1 hfe, ?_, ?_, ?_⟩
      · cases fe with
        | true => rw [hc0 rfl]; norm_num
        | false => rw [hc1 rfl]
      · rw [hw, dataCount_append]
        have hd0 : dataCount (if fe then ([] : List CsvLine) else [.header])
            = 0 := by
          cases fe <;> simp [dataCount, isHeader]
        rw [hd0]
        simp only [Nat.zero_add]
        exact le_trans (dataCount_le_length _)
          (le_trans (runLoop_length_le _ _ _ _ _ _ _ _)
            (List.length_take_le 4 p.options))
      · intro old h1 hfe
        rw [headerCount_append, h1, hc0 hfe]

/-- Witness for C7 at a concrete provider, fresh file and existing file. -/
theorem C7_header_once_rows_le_four_witness :
    headerCount (run "AAPL" "T" false 0 exProvider).writes = 1 ∧
    dataCount (run "AAPL" "T" false 0 exProvider).writes ≤ 4 ∧
    headerCount ([CsvLine.header] ++
      (run "AAPL" "T" true 0 exProvider).writes) = 1 :=
  ⟨(C7_header_once_rows_le_four "AAPL" "T" false 0 exProvider).2.1 rfl
      (by simp [exProvider]) (by simp [exProvider]),
   (C7_header_once_rows_le_four "AAPL" "T" false 0 exProvider).2.2.2.1,
   (C7_header_once_rows_le_four "AAPL" "T" true 0 exProvider).2.2.2.2
      [CsvLine.header] (by simp [headerCount, isHeader]) rfl⟩

/-- Counterexample to C10 as stated: with both fatal checks passing
(non-empty history, non-empty expirations), the run does NOT always end by
printing the confirmation line — for `crashProvider` the empty calls
collection of "E1" crashes strike selection before it: no message at all
is printed.  The header part of the claim does hold: on a fresh file the
header was already written and persists. -/
theorem C10_counterexample :
    crashProvider.histData ≠ [] ∧ crashProvider.options ≠ [] ∧
    (runFull "AAPL" "T" false crashProvider).messages = [] ∧
    (runFull "AAPL" "T" false crashProvider).writes = [CsvLine.header] ∧
    (runFull "AAPL" "T" false crashProvider).crashed = true := by
  refine ⟨by simp [crashProvider], by simp [crashProvider], ?_, ?_, ?_⟩ <;>
    simp [runFull, run, runLoop, processExp, crashProvider,
      emptyCallsChain, argminAbs]

/-- Claim C10, amended: whenever both fatal checks pass and every
successfully fetched chain among the processed expirations has a nonempty
calls collection (so strike selection never crashes), the run ends by
printing the confirmation line naming the CSV file; and on a previously
non-existent file the header row is written even when every expiration was
skipped and zero data rows were appended. -/
theorem C10_confirmation (sym now : String) (fe : Bool) (hvR : ℝ)
    (p : Provider) (price : ℚ)
    (hg : p.histData.getLast? = some price)
    (hne : p.options.take 4 ≠ [])
    (hcalls : ∀ e ∈ p.options.take 4, ∀ oc, p.chain e = some oc →
      oc.calls ≠ []) :
    (run sym now fe hvR p).crashed = false ∧
    (∃ ms, (run sym now fe hvR p).messages = ms ++ [.saved csvFile]) ∧
    (fe = false → CsvLine.header ∈ (run sym now fe hvR p).writes) := by
  have hnc := runLoop_no_crash sym now (p.calendar.getD "N/A") price hvR
    p.dteOf p.chain (p.options.take 4) hcalls
  refine ⟨?_, ⟨(runLoop sym now (p.calendar.getD "N/A") price hvR p.dteOf
    p.chain (p.options.take 4)).2.1, ?_⟩, ?_⟩
  · simp [run, hg, hne, hnc]
  · simp [run, hg, hne, hnc]
  · intro hfe
    simp [run, hg, hne, hfe]

/-- Witness for the amended C10: a run over `noATMProvider` in which the
only expiration is skipped (no put at the ATM strike) still confirms, and
on a fresh file still writes the header. -/
theorem C10_confirmation_witness :
    (run "AAPL" "T" false 0 noATMProvider).crashed = false ∧
    (∃ ms, (run "AAPL" "T" false 0 noATMProvider).messages =
      ms ++ [.saved csvFile]) ∧
    (false = false →
      CsvLine.header ∈ (run "AAPL" "T" false 0 noATMProvider).writes) :=
  C10_confirmation "AAPL" "T" false 0 noATMProvider 150 rfl
    (by simp [noATMProvider])
    (by intro e he oc hoc
        simp only [noATMProvider] at hoc
        cases hoc
        simp [noPutChain])

/-- Counterexample to C4 as stated.  First, the returns for closes
[100, 102, 101, 103] are [1/50, -1/102, 2/101], which is NOT the list
[0.02, -0.0098, 0.0198] (the second and third entries only round to those
decimals).  Second, the HV value is not always positive: for the constant
closes [100, 100] the single return is 0, the population standard
deviation is 0, and the row emitted by `flatProvider`'s run carries
HV = 0. -/
theorem C4_counterexample :
    pctChange [100, 102, 101, 103] ≠ [0.02, -0.0098, 0.0198] ∧
    ∃ row : Row,
      CsvLine.data row ∈ (runFull "AAPL" "T" true flatProvider).writes ∧
      row.hv = 0 := by
  constructor
  · have h1 : pctChange [100, 102, 101, 103] = [1/50, -1/102, 2/101] := by
      norm_num [pctChange]
    rw [h1]
    intro h
    rw [List.cons.injEq, List.cons.injEq] at h
    exact absurd h.2.1 (by norm_num)
  · refine ⟨mkRow "AAPL" "T" "N/A" "2026-01-16" 150
      (round4R (hvOf [100, 100])) 30 150 exCall exPut, ?_, ?_⟩
    · simp [runFull, run, runLoop, processExp, flatProvider, exChain,
        exCall, exPut, argminAbs, minStep]
    · show round4R (hvOf [100, 100]) = 0
      have hz : hvOf [100, 100] = 0 := by
        unfold hvOf
        have hp0 : popVar (pctChange [100, 100]) = 0 := by
          norm_num [popVar, pctChange, listMean]
        rw [hp0]
        simp
      rw [hz]
      unfold round4R
      simp

/-- Claim C4, amended: the HV column equals the population standard
deviation of the simple percentage returns between consecutive
trailing-month closes (leading undefined return dropped) multiplied by
√252; it is a fixed NONNEGATIVE decimal computed once per run whose
identical rounded value is attached to every row emitted in that run; for
closes [100, 102, 101, 103] the returns ROUNDED TO 4 DECIMALS are
[0.02, -0.0098, 0.0198] and the HV value is positive. -/
theorem C4_hv_column (sym now : String) (fe : Bool) (p : Provider) :
    (∀ row : Row, CsvLine.data row ∈ (runFull sym now fe p).writes →
      row.hv = round4R (hvOf p.monthCloses)) ∧
    hvOf p.monthCloses =
      Real.sqrt ((popVar (pctChange p.monthCloses) : ℚ) : ℝ) *
        Real.sqrt 252 ∧
    0 ≤ hvOf p.monthCloses ∧ 0 ≤ round4R (hvOf p.monthCloses) ∧
    (pctChange [100, 102, 101, 103]).map round4 =
      [0.02, -0.0098, 0.0198] ∧
    0 < hvOf [100, 102, 101, 103] := by
  have hnn : 0 ≤ hvOf p.monthCloses :=
    mul_nonneg (Real.sqrt_nonneg _) (Real.sqrt_nonneg _)
  refine ⟨?_, rfl, hnn, ?_, ?_, ?_⟩
  · intro row hrow
    cases hg : p.histData.getLast? with
    | none => simp [runFull, run, hg] at hrow
    | some price =>
      by_cases hexp : p.options.take 4 = []
      · simp [runFull, run, hg, hexp] at hrow
      · have hw : (runFull sym now fe p).writes =
            (if fe then [] else [.header]) ++
            (runLoop sym now (p.calendar.getD "N/A") price
              (round4R (hvOf p.monthCloses)) p.dteOf p.chain
              (p.options.take 4)).1 := by
          simp [runFull, run, hg, hexp]
        rw [hw] at hrow
        rcases List.mem_append.mp hrow with hl | hr
        · cases fe with
          | true => simp at hl
          | false => simp at hl
        · exact runLoop_row_hv sym now (p.calendar.getD "N/A") price
            (round4R (hvOf p.monthCloses)) p.dteOf p.chain
            (p.options.take 4) row hr
  · have hr : (0 : ℤ) ≤ round (hvOf p.monthCloses * 10000) := by
      rw [round_eq]
      refine Int.le_floor.mpr ?_
      push_cast
      nlinarith
    unfold round4R
    exact div_nonneg (by exact_mod_cast hr) (by norm_num)
  · norm_num [pctChange, round4, round_eq]
  · refine mul_pos (Real.sqrt_pos.mpr ?_) (Real.sqrt_pos.mpr (by norm_num))
    have hp : popVar (pctChange [100, 102, 101, 103]) =
        58532101 / 298494011250 := by
      norm_num [popVar, pctChange, listMean]
    rw [hp]
    exact_mod_cast (by norm_num : (0 : ℚ) < 58532101 / 298494011250)

/-- Witness for the amended C4: the row emitted by `exProvider`'s run
carries the run's single rounded HV value. -/
theorem C4_hv_column_witness :
    (mkRow "AAPL" "T" "N/A" "2026-01-16" 150
      (round4R (hvOf [100, 102, 101, 103])) 30 150 exCall exPut).hv =
      round4R (hvOf exProvider.monthCloses) :=
  (C4_hv_column "AAPL" "T" false exProvider).1
    (mkRow "AAPL" "T" "N/A" "2026-01-16" 150
      (round4R (hvOf [100, 102, 101, 103])) 30 150 exCall exPut)
    (by simp [runFull, run, runLoop, processExp, exProvider, exChain,
      exCall, exPut, argminAbs, minStep])

end ATMStraddle
